import Mathlib

/-!
Verification of the JSONPath autocomplete engine of `src/utils.ts`
(openapi-format-playground).

The TypeScript source is shallowly embedded: JavaScript values are modelled
by the inductive type `JsValue`, JavaScript property access (which throws a
`TypeError` when the receiver is `null` or `undefined`) is modelled in the
`Except Unit` monad, and every function of the source that can throw is
translated into that monad.  Pure string functions are translated to pure
Lean functions over `String`, with JavaScript `-1`-based index results
modelled by `Int`.

`Array.prototype.sort` with a comparator is stable (ES2019); a stable sort
by a comparator equals sorting the index-tagged list by the linear order
"comparator result, ties broken by original index", which is how the
suggestion ranking is modelled (`rankTagged`).
-/

/-- A JavaScript value as manipulated by `utils.ts`: `undefined`, `null`,
booleans, (integer) numbers, strings, arrays and plain objects.  Object
fields are kept in insertion order, which is the order `for … in` and
`Object.keys` enumerate (the documents in question use non-numeric keys). -/
inductive JsValue where
  | undefined : JsValue
  | null : JsValue
  | bool : Bool → JsValue
  | num : Int → JsValue
  | str : String → JsValue
  | arr : List JsValue → JsValue
  | obj : List (String × JsValue) → JsValue

/-- JavaScript truthiness (`!!v`). -/
def truthy : JsValue → Bool
  | .undefined => false
  | .null => false
  | .bool b => b
  | .num n => n != 0
  | .str s => s ≠ ""
  | .arr _ => true
  | .obj _ => true

/-- `typeof v === 'object'` (true for `null`, arrays and objects). -/
def typeofObject : JsValue → Bool
  | .null => true
  | .arr _ => true
  | .obj _ => true
  | _ => false

/-- `Array.isArray v`. -/
def isArray : JsValue → Bool
  | .arr _ => true
  | _ => false

/-- `v === null`. -/
def isNull : JsValue → Bool
  | .null => true
  | _ => false

/-- JavaScript string-keyed element access into an array (`a["0"]`,
`a["length"]`, anything else is `undefined`). -/
def arrElem (xs : List JsValue) (k : String) : JsValue :=
  if k = "length" then .num xs.length
  else
    match k.toNat? with
    | some i => if toString i = k then xs.getD i .undefined else .undefined
    | none => .undefined

/-- JavaScript property access `v[k]`: throws a `TypeError` (modelled as
`Except.error ()`) when `v` is `null` or `undefined`; on objects it looks
the key up (missing keys give `undefined`); on other primitives it gives
`undefined` (built-in methods are outside the modelled fragment). -/
def jsGet : JsValue → String → Except Unit JsValue
  | .undefined, _ => .error ()
  | .null, _ => .error ()
  | .obj fields, k => .ok ((fields.lookup k).getD .undefined)
  | .arr xs, k => .ok (arrElem xs k)
  | .str s, k => .ok (if k = "length" then .num s.length else .undefined)
  | _, _ => .ok .undefined

/-- `Object.keys v` / `for … in v` key enumeration (total model; the source
only applies it to truthy values). -/
def jsOwnKeys : JsValue → List String
  | .obj fields => fields.map (·.1)
  | .arr xs => (List.range xs.length).map toString
  | _ => []

/-- `for key in v` as (key, value) pairs, in enumeration order. -/
def forInPairs : JsValue → List (String × JsValue)
  | .obj fields => fields
  | .arr xs => xs.enum.map (fun p => (toString p.1, p.2))
  | _ => []

/-- `pre` is a prefix of `s` (the semantics of JavaScript
`s.startsWith(pre)`). -/
def strStarts (s pre : String) : Bool := pre.data.isPrefixOf s.data

/-- Auxiliary scan for `strIncludes`. -/
def includesAux (needle : List Char) : List Char → Bool
  | [] => needle.isPrefixOf []
  | c :: rest => needle.isPrefixOf (c :: rest) || includesAux needle rest

/-- JavaScript `s.includes(t)`: `t` occurs as a contiguous substring. -/
def strIncludes (s t : String) : Bool := includesAux t.data s.data

/-- Auxiliary for `jsLastIndexOf`: fold over the characters remembering the
last position where the target occurred (`best`, `-1` when none so far). -/
def lastIdxAux : List Char → Char → Nat → Int → Int
  | [], _, _, best => best
  | a :: rest, c, i, best => lastIdxAux rest c (i + 1) (if a = c then (i : Int) else best)

/-- JavaScript `s.lastIndexOf(c)`: last index of `c` in `s`, `-1` if absent. -/
def jsLastIndexOf (s : String) (c : Char) : Int := lastIdxAux s.data c 0 (-1)

/-- JavaScript `s.substring(a, b)`: clamps both arguments to the string
length and swaps them if needed, then takes the characters in between. -/
def jsSubstring (s : String) (a b : Nat) : String :=
  let n := s.data.length
  let a' := min a n
  let b' := min b n
  ⟨(s.data.take (max a' b')).drop (min a' b')⟩

/-- Remove a single leading `'.'` (the `replace(/^\./, '')` of the source). -/
def stripLeadingDot (s : String) : String :=
  match s.data with
  | '.' :: rest => ⟨rest⟩
  | _ => s

/-- Remove every `'` and `"` (the `replace(/['"]/g, '')` of the source). -/
def stripQuotes (s : String) : String :=
  ⟨s.data.filter (fun c => ¬ (c = '\'' ∨ c = '\"'))⟩

/-- Drop the first character (the `substring(1)` used to strip a leading
`$`). -/
def dropFirst (s : String) : String := ⟨s.data.drop 1⟩

/-- State of the `parsePathSegments` scanning loop of `utils.ts`:
accumulated segments, current segment, `inBrackets`, `inQuotes`,
`quoteChar` (the initial `quoteChar` value is never consulted because the
`char === quoteChar` test is conjoined with `inQuotes`). -/
def segLoop : List Char → List String → String → Bool → Bool → Char → List String
  | [], segments, currentSegment, _, _, _ =>
    if currentSegment ≠ "" then segments ++ [currentSegment] else segments
  | ch :: rest, segments, currentSegment, inBrackets, inQuotes, quoteChar =>
    if ch = '[' ∧ ¬ inQuotes then
      segLoop rest segments (currentSegment.push ch) true inQuotes quoteChar
    else if ch = ']' ∧ ¬ inQuotes then
      segLoop rest segments (currentSegment.push ch) false inQuotes quoteChar
    else if (ch = '\'' ∨ ch = '\"') ∧ ¬ inQuotes then
      segLoop rest segments (currentSegment.push ch) inBrackets true ch
    else if ch = quoteChar ∧ inQuotes then
      segLoop rest segments (currentSegment.push ch) inBrackets false quoteChar
    else if ch = '.' ∧ ¬ inBrackets ∧ ¬ inQuotes then
      if currentSegment ≠ "" then segLoop rest (segments ++ [currentSegment]) "" inBrackets inQuotes quoteChar
      else segLoop rest segments currentSegment inBrackets inQuotes quoteChar
    else
      segLoop rest segments (currentSegment.push ch) inBrackets inQuotes quoteChar

/-- `parsePathSegments` of `utils.ts`: split a JSONPath into segments,
honouring one level of bracket/quote nesting, and prepend the `$` root. -/
def parsePathSegments (path : String) : List String :=
  if path = "" then []
  else if path = "$" then ["$"]
  else
    let normalizedPath := if strStarts path "$" then dropFirst path else path
    "$" :: segLoop normalizedPath.data [] "" false false ' '

/-- Count the common segment-wise prefix of two segment lists (the loop of
`commonPathLength`). -/
def countCommonSegments : List String → List String → Nat
  | a :: as, b :: bs => if a = b then 1 + countCommonSegments as bs else 0
  | _, _ => 0

/-- `commonPathLength` of `utils.ts`. -/
def commonPathLength (path1 path2 : String) : Nat :=
  countCommonSegments (parsePathSegments path1) (parsePathSegments path2)

/-- The record returned by `analyzeCurrentSegment`. -/
structure SegmentAnalysis where
  fullPath : String
  currentSegmentStart : Nat
  currentSegmentEnd : Nat
  currentSegment : String
  parentPath : String
  isTypingProperty : Bool
  isInBrackets : Bool
deriving DecidableEq, Repr

/-- `analyzeCurrentSegment` of `utils.ts`.  The branch indices are
JavaScript `lastIndexOf` results (`-1` when absent), hence `Int`; where a
branch is taken they are provably non-negative and `Int.toNat` is exact. -/
def analyzeCurrentSegment (path : String) (cursorPosition : Nat) : SegmentAnalysis :=
  let pathToCursor := jsSubstring path 0 cursorPosition
  let lastDotIndex := jsLastIndexOf pathToCursor '.'
  let lastOpenBracketIndex := jsLastIndexOf pathToCursor '['
  let lastCloseBracketIndex := jsLastIndexOf pathToCursor ']'
  let st :=
    if lastDotIndex > lastCloseBracketIndex then
      (lastDotIndex.toNat + 1, jsSubstring path 0 lastDotIndex.toNat, true, false)
    else if lastOpenBracketIndex > lastCloseBracketIndex then
      (lastOpenBracketIndex.toNat + 1, jsSubstring path 0 lastOpenBracketIndex.toNat, false, true)
    else if lastCloseBracketIndex > 0 ∧ lastCloseBracketIndex = (pathToCursor.length : Int) - 1 then
      (lastCloseBracketIndex.toNat + 1, jsSubstring path 0 (lastCloseBracketIndex.toNat + 1), false, false)
    else if strStarts pathToCursor "$" then
      (1, "$", false, false)
    else
      (0, "", false, false)
  { fullPath := path
    currentSegmentStart := st.1
    currentSegmentEnd := path.length
    currentSegment := jsSubstring path st.1 cursorPosition
    parentPath := st.2.1
    isTypingProperty := st.2.2.1
    isInBrackets := st.2.2.2 }

/-- The `SuggestionCategory` enum of `utils.ts`. -/
inductive SuggestionCategory where
  | SCHEMA_FIELD
  | PROPERTY_ACCESS
  | ARRAY_ACCESS
  | SYNTAX_ELEMENT
  | OTHER
deriving DecidableEq, Repr

/-- The numeric value of each enum member (0..4). -/
def SuggestionCategory.toNat : SuggestionCategory → Nat
  | .SCHEMA_FIELD => 0
  | .PROPERTY_ACCESS => 1
  | .ARRAY_ACCESS => 2
  | .SYNTAX_ELEMENT => 3
  | .OTHER => 4

/-- The `CategorizedSuggestion` record of `utils.ts` (importance can go
negative through `100 - length`, hence `Int`). -/
structure CategorizedSuggestion where
  text : String
  category : SuggestionCategory
  frequency : Nat
  importance : Int
deriving DecidableEq, Repr

/-- `DEFAULT_JSONPATH_PARTS` of `utils.ts`. -/
def DEFAULT_JSONPATH_PARTS : List String :=
  ["$", ".", "..", "[", "]", "*", "?", "(", ")", "@", "$.paths", "$.components", "$.info"]

/-- `isSyntaxElement` of `utils.ts`. -/
def isSyntaxElement (suggestion : String) : Bool :=
  [".", ".*", ".**", "[*]", "[?()]", "@", "$..*"].contains suggestion
    || strStarts suggestion "$."

/-- `suggestion.split(/\.|\[|\]/)` - split on every `.`, `[`, `]`
occurrence, keeping empty fields (which the caller filters out). -/
def splitDelims : List Char → List Char → List String
  | [], cur => [⟨cur.reverse⟩]
  | c :: rest, cur =>
    if c = '.' ∨ c = '[' ∨ c = ']' then (⟨cur.reverse⟩ : String) :: splitDelims rest []
    else splitDelims rest (c :: cur)

/-- `suggestion.split(/\.|\[|\]/).filter(Boolean)` of `utils.ts`. -/
def splitSegs (s : String) : List String := (splitDelims s.data []).filter (· ≠ "")

/-- Record the segments of one suggestion in the frequency map
(`frequencyMap.set(seg, (frequencyMap.get(seg) || 0) + 1)`). -/
def bumpSegs (freq : String → Nat) (segs : List String) : String → Nat :=
  segs.foldl (fun f seg => fun x => if x = seg then f seg + 1 else f x) freq

/-- The category/importance computation for one suggestion in
`categorizeAndSortSuggestions` (lines 637–687 of `utils.ts`).  `freq` is
the frequency map state after this suggestion's own segments were counted,
which is when the source reads `frequencyMap.get(suggestion) || 0`. -/
def categorizeOne (analysis : SegmentAnalysis) (currentPath : String)
    (freq : String → Nat) (suggestion : String) : CategorizedSuggestion :=
  let commonLength := commonPathLength currentPath suggestion
  let ci : SuggestionCategory × Int :=
    if analysis.isTypingProperty || analysis.isInBrackets then
      let pfx := analysis.currentSegment.toLower
      if strStarts suggestion.toLower pfx then
        (.SCHEMA_FIELD, 100 - (suggestion.length : Int))
      else if analysis.parentPath ≠ "" ∧ strStarts suggestion analysis.parentPath then
        (.PROPERTY_ACCESS, 80 - ((suggestion.length : Int) - (analysis.parentPath.length : Int)))
      else if commonLength > 0 then
        (.ARRAY_ACCESS, 70 - ((suggestion.length : Int) - (commonLength : Int)))
      else if isSyntaxElement suggestion then
        (.SYNTAX_ELEMENT, 50)
      else if strIncludes suggestion pfx then
        (.OTHER, 30)
      else (.OTHER, 0)
    else if currentPath = "$" ∨ currentPath = "" then
      if DEFAULT_JSONPATH_PARTS.contains suggestion then (.SCHEMA_FIELD, 100)
      else if strStarts suggestion "$." then (.PROPERTY_ACCESS, 80)
      else (.OTHER, 0)
    else (.OTHER, 0)
  { text := suggestion
    category := ci.1
    importance := ci.2
    frequency := freq suggestion }

/-- The `suggestions.map(...)` pass of `categorizeAndSortSuggestions`: the
frequency map is mutated across iterations, so it is threaded through the
fold. -/
def categorizeList (analysis : SegmentAnalysis) (currentPath : String)
    (freq : String → Nat) : List String → List CategorizedSuggestion
  | [] => []
  | s :: rest =>
    let freq' := bumpSegs freq (splitSegs s)
    categorizeOne analysis currentPath freq' s :: categorizeList analysis currentPath freq' rest

/-- All categorized suggestions, in input order, with the frequency map
evolving left to right exactly as in the source. -/
def categorizeSuggestions (suggestions : List String) (currentPath : String)
    (cursorPosition : Nat) : List CategorizedSuggestion :=
  categorizeList (analyzeCurrentSegment currentPath cursorPosition) currentPath (fun _ => 0) suggestions

/-- The comparator of `categorizeAndSortSuggestions` orders by ascending
category ordinal, then descending importance, then descending frequency:
equivalently, by this key, lexicographically ascending. -/
def sortKey (c : CategorizedSuggestion) : Nat × Int × Int :=
  (c.category.toNat, -c.importance, -(c.frequency : Int))

/-- Strict lexicographic order on sort keys ("the comparator returns a
negative number"). -/
def keyLt (a b : Nat × Int × Int) : Prop :=
  a.1 < b.1 ∨ (a.1 = b.1 ∧ (a.2.1 < b.2.1 ∨ (a.2.1 = b.2.1 ∧ a.2.2 < b.2.2)))

instance : DecidableRel keyLt := fun a b => by unfold keyLt; infer_instance

/-- The order realized by a stable comparator sort on the index-tagged
list: strictly smaller key, or equal key and not-later original position. -/
def tagLe (x y : Nat × CategorizedSuggestion) : Prop :=
  keyLt (sortKey x.2) (sortKey y.2) ∨ (sortKey x.2 = sortKey y.2 ∧ x.1 ≤ y.1)

instance : DecidableRel tagLe := fun x y => by unfold tagLe; infer_instance

/-- The sorted, index-tagged categorized suggestions.  `tagLe` is a linear
order on index-tagged elements (indices are distinct), so the sorted
permutation is unique and equals the output of the stable
`categorized.sort(comparator)` of the source. -/
def rankTagged (suggestions : List String) (currentPath : String)
    (cursorPosition : Nat) : List (Nat × CategorizedSuggestion) :=
  List.insertionSort tagLe (categorizeSuggestions suggestions currentPath cursorPosition).enum

/-- `categorizeAndSortSuggestions` of `utils.ts`. -/
def categorizeAndSortSuggestions (suggestions : List String) (currentPath : String)
    (cursorPosition : Nat) : List String :=
  if suggestions = [] then []
  else (rankTagged suggestions currentPath cursorPosition).map (fun x => x.2.text)

/-- De-duplication preserving first occurrences
(`Array.from(new Set(paths))`). -/
def dedupAux (seen : List String) : List String → List String
  | [] => []
  | x :: xs => if x ∈ seen then dedupAux seen xs else x :: dedupAux (x :: seen) xs

/-- `Array.from(new Set(l))`: first-occurrence order, duplicates removed. -/
def dedupFirst (l : List String) : List String := dedupAux [] l

/-- The nine fixed top-level OpenAPI section names seeded by
`extractPropertyPaths` at the root call. -/
def rootSectionNames : List String :=
  ["info", "paths", "components", "tags", "servers", "externalDocs", "security", "webhooks", "openapi"]

/-- The `for key in obj` body of `extractPropertyPaths`, with the recursive
call at depth `maxDepth - 1` abstracted as `recur` (the caller passes the
function specialised to the decremented depth, which is exact because the
loop only runs when `maxDepth ≥ 1`).  Keys starting with `$` or `_` are
skipped; arrays yield `key[*]`, concrete indices for length ≤ 5, and
`key[*].child` paths from the first element when it has object type;
objects recurse with the extended parent path. -/
def extractFieldsWith (recur : JsValue → String → List String) :
    List (String × JsValue) → String → List String
  | [], _ => []
  | (key, v) :: rest, parentPath =>
    (if strStarts key "$" || strStarts key "_" then []
     else
       [key] ++
       (if typeofObject v && !(isNull v) then
          match v with
          | .arr xs =>
            [key ++ "[*]"] ++
            (if xs.length ≤ 5 then
              (List.range xs.length).map (fun i => key ++ "[" ++ toString i ++ "]")
             else []) ++
            (match xs.head? with
             | some x0 =>
               if typeofObject x0 then (recur x0 "").map (fun childKey => key ++ "[*]." ++ childKey)
               else []
             | none => [])
          | _ => recur v (if parentPath = "" then key else parentPath ++ "." ++ key)
        else []))
    ++ extractFieldsWith recur rest parentPath

/-- `extractPropertyPaths` of `utils.ts` (depth modelled as `Nat`; the
source's `maxDepth <= 0` guard and `maxDepth - 1` recursion coincide with
the `Nat` match for the non-negative depths it is called with). -/
def extractPropertyPaths : JsValue → String → Nat → List String
  | _, _, 0 => []
  | v, parentPath, d + 1 =>
    if !(truthy v) || !(typeofObject v) then []
    else
      dedupFirst
        ((if parentPath = "" then rootSectionNames else []) ++
          extractFieldsWith (fun c cp => extractPropertyPaths c cp d) (forInPairs v) parentPath)

/-- `getCommonJSONPathExpressions` of `utils.ts`. -/
def getCommonJSONPathExpressions : List String :=
  ["$", "$.info", "$.info.title", "$.info.version", "$.info.description",
   "$.paths", "$.components", "$.tags", "$.servers",
   "$.paths.*", "$.paths.*.*", "$.paths.*.get", "$.paths.*.post",
   "$.paths.*.put", "$.paths.*.delete", "$.paths.*.parameters",
   "$.components.schemas", "$.components.responses", "$.components.parameters",
   "$.components.examples", "$.components.requestBodies", "$.components.headers",
   "$.components.securitySchemes", "$.components.links", "$.components.callbacks",
   "$..description", "$..schema", "$..type", "$..properties", "$..items",
   "$..required", "$..parameters", "$..responses", "$..operationId",
   "$..summary", "$..tags"]

/-- The character-scanning loop of `resolveSchemaPath`.  Each iteration
ends with the source's `if (current === undefined) return undefined`
check; property accesses are `jsGet`, so indexing into `null` raises (and
indexing into `undefined` never happens thanks to that check). -/
def resolveLoop : List Char → JsValue → String → Bool → Char → Except Unit JsValue
  | [], current, buffer, _, _ =>
    if buffer ≠ "" then
      let key := stripLeadingDot buffer
      if key ≠ "" then jsGet current key else .ok current
    else .ok current
  | ch :: rest, current, buffer, inQuotes, quoteChar => do
    let st ←
      if (ch = '\'' ∨ ch = '\"') ∧ (¬ inQuotes ∨ quoteChar = ch) then
        pure (current, buffer.push ch, !inQuotes, ch)
      else if ch = '[' ∧ ¬ inQuotes then
        if buffer ≠ "" then do
          let c ← jsGet current (stripLeadingDot buffer)
          pure (c, "", inQuotes, quoteChar)
        else pure (current, buffer, inQuotes, quoteChar)
      else if ch = ']' ∧ ¬ inQuotes then do
        let c ← jsGet current (stripQuotes buffer)
        pure (c, "", inQuotes, quoteChar)
      else if ch = '.' ∧ ¬ inQuotes then
        if buffer ≠ "" then
          let key := stripLeadingDot buffer
          if key ≠ "" then do
            let c ← jsGet current key
            pure (c, "", inQuotes, quoteChar)
          else pure (current, "", inQuotes, quoteChar)
        else pure (current, buffer, inQuotes, quoteChar)
      else
        pure (current, buffer.push ch, inQuotes, quoteChar)
    if st.1 matches JsValue.undefined then .ok .undefined
    else resolveLoop rest st.1 st.2.1 st.2.2.1 st.2.2.2

/-- `resolveSchemaPath` of `utils.ts`. -/
def resolveSchemaPath (schema : JsValue) (path : String) : Except Unit JsValue :=
  if !(truthy schema) || path = "" then .ok .undefined
  else if path = "$" then .ok schema
  else
    let normalizedPath := if strStarts path "$" then dropFirst path else path
    resolveLoop normalizedPath.data schema "" false ' '

/-- The HTTP method list of `extractOpenAPISpecificPaths`. -/
def httpMethods : List String :=
  ["get", "post", "put", "delete", "options", "head", "patch", "trace"]

/-- The component section list of `extractOpenAPISpecificPaths`. -/
def componentSections : List String :=
  ["schemas", "responses", "parameters", "examples", "requestBodies",
   "headers", "securitySchemes", "links", "callbacks"]

/-- `extractOpenAPISpecificPaths` of `utils.ts`, with every JavaScript
property access going through `jsGet` so that the `TypeError`s the source
can raise (e.g. `content[contentType].schema` when the content-type entry
is `null`) are modelled as `Except.error`. -/
def extractOpenAPISpecificPaths (schema : JsValue) : Except Unit (List String) := do
  if !(truthy schema) || !(typeofObject schema) then
    return []
  let mut paths : List String := []
  let schemaPaths ← jsGet schema "paths"
  if truthy schemaPaths then
    let pathKeys := jsOwnKeys schemaPaths
    paths := paths ++ ["$.paths"]
    for pathKey in pathKeys do
      let escapedPath :=
        if pathKey.contains '/' then "$.paths['" ++ pathKey ++ "']"
        else "$.paths." ++ pathKey
      paths := paths ++ [escapedPath]
      let pathItem ← jsGet schemaPaths pathKey
      if truthy pathItem && typeofObject pathItem then
        let mut methods : List String := []
        for m in httpMethods do
          let mv ← jsGet pathItem m
          if truthy mv then
            methods := methods ++ [m]
        for m in methods do
          paths := paths ++ [escapedPath ++ "." ++ m]
          let op ← jsGet pathItem m
          if truthy op then
            let opId ← jsGet op "operationId"
            if truthy opId then
              paths := paths ++ [escapedPath ++ "." ++ m ++ ".operationId"]
            let params ← jsGet op "parameters"
            if truthy params then
              paths := paths ++ [escapedPath ++ "." ++ m ++ ".parameters"]
            let requestBody ← jsGet op "requestBody"
            if truthy requestBody then
              paths := paths ++ [escapedPath ++ "." ++ m ++ ".requestBody"]
              let content ← jsGet requestBody "content"
              if truthy content then
                paths := paths ++ [escapedPath ++ "." ++ m ++ ".requestBody.content"]
                for contentType in jsOwnKeys content do
                  let contentPath :=
                    escapedPath ++ "." ++ m ++ ".requestBody.content['" ++ contentType ++ "']"
                  paths := paths ++ [contentPath]
                  let ctVal ← jsGet content contentType
                  let ctSchema ← jsGet ctVal "schema"
                  if truthy ctSchema then
                    paths := paths ++ [contentPath ++ ".schema"]
                    let props ← jsGet ctSchema "properties"
                    if truthy props then
                      paths := paths ++ [contentPath ++ ".schema.properties"]
                      for prop in jsOwnKeys props do
                        paths := paths ++ [contentPath ++ ".schema.properties." ++ prop]
            let responses ← jsGet op "responses"
            if truthy responses then
              paths := paths ++ [escapedPath ++ "." ++ m ++ ".responses"]
              for code in jsOwnKeys responses do
                let responsePath := escapedPath ++ "." ++ m ++ ".responses['" ++ code ++ "']"
                paths := paths ++ [responsePath]
                let response ← jsGet responses code
                let respContent ← jsGet response "content"
                if truthy respContent then
                  paths := paths ++ [responsePath ++ ".content"]
                  for contentType in jsOwnKeys respContent do
                    paths := paths ++ [responsePath ++ ".content['" ++ contentType ++ "']"]
                    let rcVal ← jsGet respContent contentType
                    let rcSchema ← jsGet rcVal "schema"
                    if truthy rcSchema then
                      paths := paths ++ [responsePath ++ ".content['" ++ contentType ++ "'].schema"]
  let components ← jsGet schema "components"
  if truthy components then
    paths := paths ++ ["$.components"]
    for sect in componentSections do
      let sectionVal ← jsGet components sect
      if truthy sectionVal then
        paths := paths ++ ["$.components." ++ sect]
        for component in jsOwnKeys sectionVal do
          paths := paths ++ ["$.components." ++ sect ++ "." ++ component]
          if sect = "schemas" then
            let comp ← jsGet sectionVal component
            if truthy comp then
              let props ← jsGet comp "properties"
              if truthy props then
                paths := paths ++ ["$.components.schemas." ++ component ++ ".properties"]
                for prop in jsOwnKeys props do
                  paths := paths ++ ["$.components.schemas." ++ component ++ ".properties." ++ prop]
  return paths

/-- `generatePathSuggestions` of `utils.ts`.  It calls
`extractOpenAPISpecificPaths`, so it inherits that function's possible
`TypeError`s. -/
def generatePathSuggestions (schema : JsValue) (inputPath : String)
    (cursorPosition : Nat) : Except Unit (List String) := do
  let commonPaths := getCommonJSONPathExpressions
  let extractedPaths := extractPropertyPaths schema "" 3
  let specPaths ← extractOpenAPISpecificPaths schema
  let allSuggestions := dedupFirst (commonPaths ++ extractedPaths ++ specPaths)
  if inputPath = "" then
    return categorizeAndSortSuggestions allSuggestions "$" 1
  else
    let analysis := analyzeCurrentSegment inputPath cursorPosition
    let filteredSuggestions := allSuggestions.filter (fun suggestion =>
      if analysis.isTypingProperty && analysis.currentSegment ≠ "" then
        strIncludes suggestion.toLower analysis.currentSegment.toLower
      else if analysis.isInBrackets && analysis.currentSegment ≠ "" then
        strIncludes suggestion.toLower analysis.currentSegment.toLower
      else
        strIncludes suggestion.toLower inputPath.toLower)
    return categorizeAndSortSuggestions filteredSuggestions inputPath cursorPosition

/-- The common OpenAPI descriptor keys of `getContextualSuggestions`. -/
def commonOpenAPIProps : List String :=
  ["type", "properties", "items", "required", "description", "format"]

/-- The body of the `try` block of `getContextualSuggestions` once the
parent has resolved to a truthy object: its own keys, split into schema
fields and common OpenAPI properties, formatted for the cursor context,
plus syntax elements, filtered by the typed prefix.  This part is pure and
cannot throw. -/
def contextualFromParent (parent : JsValue) (analysis : SegmentAnalysis) : List String :=
  let keys := (jsOwnKeys parent).filter
    (fun k => !(strStarts k "$") && !(strStarts k "_"))
  let schemaFields := keys.filter (fun k => ¬ commonOpenAPIProps.contains k)
  let commonProps := keys.filter (fun k => commonOpenAPIProps.contains k)
  let syntaxElements :=
    if analysis.currentSegment = "" then
      (if isArray parent then ["[*]", "[0]"] else []) ++ [".*", ".**", ".."]
    else []
  let formatKey := fun (k : String) =>
    if analysis.isInBrackets then
      if k.contains ' ' || k.contains '-' || k.contains '/' then "'" ++ k ++ "'" else k
    else if analysis.isTypingProperty then k
    else "." ++ k
  let contextualSuggestions :=
    schemaFields.map formatKey ++ commonProps.map formatKey ++ syntaxElements
  if analysis.currentSegment ≠ "" then
    contextualSuggestions.filter
      (fun suggestion => strStarts suggestion.toLower analysis.currentSegment.toLower)
  else contextualSuggestions

/-- `getContextualSuggestions` of `utils.ts`.  Exceptions raised inside the
`try` block (only `resolveSchemaPath` can raise there) are caught and
control falls through to the `generatePathSuggestions` fallback, whose own
exceptions are NOT caught.  `previewValue` is accepted and unused, as in
the source. -/
def getContextualSuggestions (schema : JsValue) (currentPath : String)
    (cursorPosition : Nat) (previewValue : Option String) : Except Unit (List String) :=
  if currentPath = "" || !(truthy schema) then .ok DEFAULT_JSONPATH_PARTS
  else if currentPath = "$" then .ok [".info", ".paths", ".components", ".tags", ".servers"]
  else
    let analysis := analyzeCurrentSegment currentPath cursorPosition
    let tryResult : Option (List String) :=
      match resolveSchemaPath schema analysis.parentPath with
      | .error _ => none
      | .ok parent =>
        if truthy parent && typeofObject parent then some (contextualFromParent parent analysis)
        else none
    match tryResult with
    | some s => .ok s
    | none => generatePathSuggestions schema currentPath cursorPosition

/-! ### Theorems -/

/-- C2 (counterexample): on the empty input, `parsePathSegments` returns
the empty list, so its first element is not `"$"` and the result is empty,
contradicting the claim's universal part. -/
theorem parsePathSegments_empty :
    parsePathSegments "" = [] ∧ (parsePathSegments "").head? ≠ some "$" := by
  decide

/-- C2 (amended): for every NON-empty input string `p`, the first element
of `parsePathSegments p` is `"$"` and the result is non-empty; the empty
input yields the empty sequence. -/
theorem parsePathSegments_head_nonempty (p : String) (h : p ≠ "") :
    (parsePathSegments p).head? = some "$" ∧ parsePathSegments p ≠ [] := by
  unfold parsePathSegments
  rw [if_neg h]
  split <;> simp

/-- C2 (witness): the amended theorem applied at `"$.x"`. -/
theorem parsePathSegments_head_nonempty_witness :
    ("$.x" ≠ "") ∧ ((parsePathSegments "$.x").head? = some "$" ∧ parsePathSegments "$.x" ≠ []) :=
  ⟨by decide, parsePathSegments_head_nonempty "$.x" (by decide)⟩

/-- C5 (counterexample): `resolveSchemaPath` CAN throw: resolving
`"$.a.b"` against `{a: null}` indexes into `null`, which raises a
`TypeError` (modelled as `Except.error`), refuting "never throws for every
document and every path". -/
theorem resolveSchemaPath_null_throws :
    resolveSchemaPath (.obj [("a", .null)]) "$.a.b" = .error () := rfl

/-- C5 (amended): missing keys and indexing through `undefined` make
`resolveSchemaPath` return `undefined` without throwing (it can only throw
when an intermediate value is `null`); concretely
`resolveSchemaPath({info:{title:"x"}}, "$.info")` returns `{title:"x"}`
and `resolveSchemaPath({}, "$.missing.deep")` returns `undefined`. -/
theorem resolveSchemaPath_examples :
    resolveSchemaPath (.obj [("info", .obj [("title", .str "x")])]) "$.info"
      = .ok (.obj [("title", .str "x")]) ∧
    resolveSchemaPath (.obj []) "$.missing.deep" = .ok .undefined :=
  ⟨rfl, rfl⟩

/-- C7 (counterexample): against currentPath `"$"`, the candidate
`"$.info"` is a member of `DEFAULT_JSONPATH_PARTS`, so the source
classifies it as `SCHEMA_FIELD` — not `PROPERTY_ACCESS` as the claim
states. -/
theorem dollar_info_category_schema_field :
    (categorizeSuggestions ["zzz_other", "$.info"] "$" 1).map (fun c => (c.text, c.category))
      = [("zzz_other", .OTHER), ("$.info", .SCHEMA_FIELD)] ∧
    SuggestionCategory.SCHEMA_FIELD ≠ SuggestionCategory.PROPERTY_ACCESS := by
  decide

/-- C7 (amended): against currentPath `"$"`, `"$.info"` still ranks before
`"zzz_other"`, but because `"$.info"` is in the fixed default-parts list it
is classified `SCHEMA_FIELD` with importance 100, while `"zzz_other"` is
`OTHER` with importance 0. -/
theorem root_ranking_dollar_info_first :
    categorizeAndSortSuggestions ["zzz_other", "$.info"] "$" 1 = ["$.info", "zzz_other"] ∧
    (categorizeSuggestions ["zzz_other", "$.info"] "$" 1).map
        (fun c => (c.text, c.category, c.importance))
      = [("zzz_other", .OTHER, 0), ("$.info", .SCHEMA_FIELD, 100)] := by
  decide

/-- C1 (counterexample): ranking is NOT idempotent.  For the input list
`["a", "b", "$.b"]` at root, the first ranking pass yields
`["$.b", "a", "b"]`; ranking that output again yields `["$.b", "b", "a"]`,
because the frequency tiebreaker is computed incrementally over the input
order and changes when the list is reordered. -/
theorem categorizeAndSortSuggestions_not_idempotent :
    categorizeAndSortSuggestions (categorizeAndSortSuggestions ["a", "b", "$.b"] "$" 1) "$" 1
      ≠ categorizeAndSortSuggestions ["a", "b", "$.b"] "$" 1 := by
  decide

/-- C3 (confirmed): whenever, in the prefix of the path up to the cursor,
the last `'.'` occurs after the last `']'` (JavaScript `lastIndexOf`
comparison, `-1` for absent), `analyzeCurrentSegment` reports a
dotted-property context: `currentSegmentStart = lastDot + 1`,
`parentPath = path[0:lastDot]`, `isTypingProperty = true`; concretely,
`analyzeCurrentSegment("$.info.title", 12)` yields
`isTypingProperty = true`, `currentSegment = "title"`,
`parentPath = "$.info"`. -/
theorem analyzeCurrentSegment_dot_branch (path : String) (cursor : Nat)
    (h : jsLastIndexOf (jsSubstring path 0 cursor) '.' > jsLastIndexOf (jsSubstring path 0 cursor) ']') :
    ((analyzeCurrentSegment path cursor).currentSegmentStart
        = (jsLastIndexOf (jsSubstring path 0 cursor) '.').toNat + 1 ∧
      (analyzeCurrentSegment path cursor).parentPath
        = jsSubstring path 0 (jsLastIndexOf (jsSubstring path 0 cursor) '.').toNat ∧
      (analyzeCurrentSegment path cursor).isTypingProperty = true) ∧
    ((analyzeCurrentSegment "$.info.title" 12).isTypingProperty = true ∧
      (analyzeCurrentSegment "$.info.title" 12).currentSegment = "title" ∧
      (analyzeCurrentSegment "$.info.title" 12).parentPath = "$.info") := by
  refine ⟨?_, by decide⟩
  unfold analyzeCurrentSegment
  simp only [if_pos h]
  exact ⟨trivial, trivial, trivial⟩

/-- C3 (witness): the dot-branch theorem applied at `("$.info.title", 12)`,
where the branch condition evaluates to `6 > -1`. -/
theorem analyzeCurrentSegment_dot_branch_witness :
    jsLastIndexOf (jsSubstring "$.info.title" 0 12) '.'
        > jsLastIndexOf (jsSubstring "$.info.title" 0 12) ']' ∧
    (analyzeCurrentSegment "$.info.title" 12).currentSegmentStart
        = (jsLastIndexOf (jsSubstring "$.info.title" 0 12) '.').toNat + 1 :=
  ⟨by decide, (analyzeCurrentSegment_dot_branch "$.info.title" 12 (by decide)).1.1⟩

/-- `lastIdxAux` either keeps the running best or returns a position in
`[i, i + length)`. -/
theorem lastIdxAux_cases : ∀ (l : List Char) (c : Char) (i : Nat) (best : Int),
    lastIdxAux l c i best = best ∨
      ((i : Int) ≤ lastIdxAux l c i best ∧ lastIdxAux l c i best < (i : Int) + l.length) := by
  intro l
  induction l with
  | nil => intro c i best; left; rfl
  | cons a rest ih =>
    intro c i best
    simp only [lastIdxAux]
    rcases ih c (i + 1) (if a = c then (i : Int) else best) with h | h
    · rw [h]
      split
      · right
        refine ⟨le_refl _, ?_⟩
        simp only [List.length_cons]
        push_cast
        omega
      · left; rfl
    · right
      simp only [List.length_cons]
      push_cast at h ⊢
      omega

/-- A JavaScript `lastIndexOf` result is `-1` or a valid index. -/
theorem jsLastIndexOf_cases (s : String) (c : Char) :
    jsLastIndexOf s c = -1 ∨ (0 ≤ jsLastIndexOf s c ∧ jsLastIndexOf s c < (s.length : Int)) := by
  have h := lastIdxAux_cases s.data c 0 (-1)
  unfold jsLastIndexOf
  rcases h with h | h
  · left; exact h
  · right
    constructor
    · exact_mod_cast h.1
    · have := h.2
      simpa using this

/-- The characters of `jsSubstring s 0 k`. -/
theorem jsSubstring_zero_data (s : String) (k : Nat) :
    (jsSubstring s 0 k).data = s.data.take (min k s.data.length) := by
  simp [jsSubstring]

/-- The length of `jsSubstring s 0 k`. -/
theorem jsSubstring_zero_length (s : String) (k : Nat) :
    (jsSubstring s 0 k).length = min k s.length := by
  show (jsSubstring s 0 k).data.length = _
  rw [jsSubstring_zero_data, List.length_take]
  show min (min k s.data.length) s.data.length = min k s.data.length
  omega

/-- `jsSubstring s 0 k` is a prefix of `s` (witnessed by the dropped
tail). -/
theorem jsSubstring_zero_split (s : String) (k : Nat) :
    ∃ t, s.data = (jsSubstring s 0 k).data ++ t :=
  ⟨s.data.drop (min k s.data.length), by
    rw [jsSubstring_zero_data]; exact (List.take_append_drop _ _).symm⟩

/-- A take of a list that starts with `'$'` forces the list itself to
start with `'$'`. -/
theorem take_starts_dollar {l : List Char} {k : Nat}
    (h : (['$'] : List Char).isPrefixOf (l.take k) = true) : ∃ t, l = '$' :: t := by
  cases l with
  | nil => simp [List.isPrefixOf] at h
  | cons c cs =>
    cases k with
    | zero => simp [List.isPrefixOf] at h
    | succ k' =>
      simp only [List.take, List.isPrefixOf, List.isPrefixOf_nil_left, Bool.and_true,
        beq_iff_eq] at h
      exact ⟨cs, by rw [h]⟩

/-- C4 (counterexample): when the cursor sits immediately after a closing
`']'` — `analyzeCurrentSegment("$.a[0]", 6)` — `parentPath` is the WHOLE
path `"$.a[0]"`: it is not a strict prefix of `fullPath`, its length is
`currentSegmentStart` (6) rather than `currentSegmentStart - 1`, and it is
not `"$"`. -/
theorem analyzeCurrentSegment_parentPath_after_bracket :
    (analyzeCurrentSegment "$.a[0]" 6).parentPath = "$.a[0]" ∧
    (analyzeCurrentSegment "$.a[0]" 6).parentPath = (analyzeCurrentSegment "$.a[0]" 6).fullPath ∧
    (analyzeCurrentSegment "$.a[0]" 6).currentSegmentStart = 6 ∧
    (analyzeCurrentSegment "$.a[0]" 6).parentPath.length ≠
      (analyzeCurrentSegment "$.a[0]" 6).currentSegmentStart - 1 ∧
    (analyzeCurrentSegment "$.a[0]" 6).parentPath ≠ "$" := by
  decide

/-- C4 (amended): in every branch `parentPath` is a (not necessarily
strict) prefix of `fullPath`, and its length is `currentSegmentStart - 1`
(dotted-property and open-bracket branches) or `currentSegmentStart`
(closing-bracket branch — where it can equal the whole path —, root, and
default branches). -/
theorem analyzeCurrentSegment_parentPath_prefix (path : String) (cursor : Nat) :
    (∃ t, (analyzeCurrentSegment path cursor).fullPath.data
        = (analyzeCurrentSegment path cursor).parentPath.data ++ t) ∧
    ((analyzeCurrentSegment path cursor).parentPath.length
        = (analyzeCurrentSegment path cursor).currentSegmentStart - 1 ∨
      (analyzeCurrentSegment path cursor).parentPath.length
        = (analyzeCurrentSegment path cursor).currentSegmentStart) := by
  have hptclen : (jsSubstring path 0 cursor).length = min cursor path.length :=
    jsSubstring_zero_length path cursor
  unfold analyzeCurrentSegment
  by_cases h1 : jsLastIndexOf (jsSubstring path 0 cursor) '.' > jsLastIndexOf (jsSubstring path 0 cursor) ']'
  · simp only [if_pos h1]
    refine ⟨jsSubstring_zero_split _ _, Or.inl ?_⟩
    have hd := jsLastIndexOf_cases (jsSubstring path 0 cursor) '.'
    have hc := jsLastIndexOf_cases (jsSubstring path 0 cursor) ']'
    rw [jsSubstring_zero_length]
    omega
  · simp only [if_neg h1]
    by_cases h2 : jsLastIndexOf (jsSubstring path 0 cursor) '[' > jsLastIndexOf (jsSubstring path 0 cursor) ']'
    · simp only [if_pos h2]
      refine ⟨jsSubstring_zero_split _ _, Or.inl ?_⟩
      have hd := jsLastIndexOf_cases (jsSubstring path 0 cursor) '['
      have hc := jsLastIndexOf_cases (jsSubstring path 0 cursor) ']'
      rw [jsSubstring_zero_length]
      omega
    · simp only [if_neg h2]
      by_cases h3 : jsLastIndexOf (jsSubstring path 0 cursor) ']' > 0 ∧
          jsLastIndexOf (jsSubstring path 0 cursor) ']' = ((jsSubstring path 0 cursor).length : Int) - 1
      · simp only [if_pos h3]
        refine ⟨jsSubstring_zero_split _ _, Or.inr ?_⟩
        have hc := jsLastIndexOf_cases (jsSubstring path 0 cursor) ']'
        rw [jsSubstring_zero_length]
        omega
      · simp only [if_neg h3]
        by_cases h4 : strStarts (jsSubstring path 0 cursor) "$" = true
        · simp only [if_pos h4]
          refine ⟨?_, Or.inr rfl⟩
          unfold strStarts at h4
          rw [jsSubstring_zero_data] at h4
          obtain ⟨t, ht⟩ := take_starts_dollar h4
          exact ⟨t, by rw [ht]; rfl⟩
        · simp only [if_neg h4]
          exact ⟨⟨path.data, rfl⟩, Or.inr rfl⟩

/-- C6 (counterexample): `getContextualSuggestions` CAN propagate an
exception.  With document
`{paths: {p: {get: {requestBody: {content: {ct: null}}}}}}` and input
`"$.zz.q"` (cursor 6), parent resolution yields `undefined`, so control
falls through to the `generatePathSuggestions` fallback — which is outside
the `try`/`catch` and throws a `TypeError` inside
`extractOpenAPISpecificPaths` when it dereferences
`content['ct'].schema` on the `null` content entry. -/
theorem getContextualSuggestions_fallback_throws :
    getContextualSuggestions
      (.obj [("paths", .obj [("p", .obj [("get", .obj [("requestBody",
        .obj [("content", .obj [("ct", .null)])])])])])])
      "$.zz.q" 6 none = .error () := rfl

/-- C6 (amended): whenever resolving the parent path throws or yields a
non-object (and the early-return guards do not fire),
`getContextualSuggestions` returns exactly the result of the generic
`generatePathSuggestions` fallback — including, as the counterexample
shows, any exception the fallback itself raises. -/
theorem getContextualSuggestions_fallback_eq (schema : JsValue) (currentPath : String)
    (cursor : Nat) (pv : Option String)
    (h1 : currentPath ≠ "") (h2 : truthy schema = true) (h3 : currentPath ≠ "$")
    (h4 : ∀ parent,
      resolveSchemaPath schema (analyzeCurrentSegment currentPath cursor).parentPath = .ok parent →
      (truthy parent && typeofObject parent) = false) :
    getContextualSuggestions schema currentPath cursor pv
      = generatePathSuggestions schema currentPath cursor := by
  unfold getContextualSuggestions
  rw [if_neg (by simp [h1, h2]), if_neg h3]
  cases hres : resolveSchemaPath schema (analyzeCurrentSegment currentPath cursor).parentPath with
  | error e => simp [hres]
  | ok parent => simp [hres, h4 parent hres]

/-- C6 (witness): the fallback-equality theorem applied to the document
`{a: 1}` and input `"$.zz.q"`, whose parent `"$.zz"` resolves to
`undefined`. -/
theorem getContextualSuggestions_fallback_eq_witness :
    ("$.zz.q" ≠ "") ∧ truthy (JsValue.obj [("a", .num 1)]) = true ∧ ("$.zz.q" ≠ "$") ∧
    getContextualSuggestions (.obj [("a", .num 1)]) "$.zz.q" 6 none
      = generatePathSuggestions (.obj [("a", .num 1)]) "$.zz.q" 6 :=
  ⟨by decide, rfl, by decide,
    getContextualSuggestions_fallback_eq (.obj [("a", .num 1)]) "$.zz.q" 6 none
      (by decide) rfl (by decide)
      (fun parent hp => by
        rw [show resolveSchemaPath (JsValue.obj [("a", JsValue.num 1)])
            (analyzeCurrentSegment "$.zz.q" 6).parentPath = Except.ok JsValue.undefined from rfl] at hp
        cases hp
        rfl)⟩

/-- Membership in `dedupAux`: an element survives iff it is in the list
and not among the already-seen elements. -/
theorem mem_dedupAux (a : String) : ∀ (l seen : List String),
    a ∈ dedupAux seen l ↔ a ∈ l ∧ a ∉ seen := by
  intro l
  induction l with
  | nil => intro seen; simp [dedupAux]
  | cons x xs ih =>
    intro seen
    simp only [dedupAux]
    split
    · rename_i hx
      rw [ih]
      simp only [List.mem_cons]
      constructor
      · rintro ⟨hm, hn⟩
        exact ⟨Or.inr hm, hn⟩
      · rintro ⟨hm | hm, hn⟩
        · exact absurd (hm ▸ hx) hn
        · exact ⟨hm, hn⟩
    · rename_i hx
      simp only [List.mem_cons, ih, not_or]
      constructor
      · rintro (rfl | ⟨hm, hn1, hn2⟩)
        · exact ⟨Or.inl rfl, hx⟩
        · exact ⟨Or.inr hm, hn2⟩
      · rintro ⟨rfl | hm, hn⟩
        · exact Or.inl rfl
        · by_cases hax : a = x
          · exact Or.inl hax
          · exact Or.inr ⟨hm, hax, hn⟩

/-- `dedupFirst` preserves membership. -/
theorem mem_dedupFirst (a : String) (l : List String) : a ∈ dedupFirst l ↔ a ∈ l := by
  unfold dedupFirst
  rw [mem_dedupAux]
  simp

/-- Every fixed root section name appears in `extractPropertyPaths` at a
root call, for any object. -/
theorem extract_root_mem (fields : List (String × JsValue)) (s : String)
    (hs : s ∈ rootSectionNames) : s ∈ extractPropertyPaths (.obj fields) "" 3 := by
  show s ∈ dedupFirst (rootSectionNames ++ _)
  rw [mem_dedupFirst]
  exact List.mem_append_left _ hs

/-- C8 (confirmed): at the root call (empty `parentPath`, default depth 3)
`extractPropertyPaths` seeds its result with the nine fixed top-level
OpenAPI section names for EVERY object, and on the empty object the result
is exactly those nine names. -/
theorem extractPropertyPaths_root_seeds (fields : List (String × JsValue)) :
    ("info" ∈ extractPropertyPaths (.obj fields) "" 3 ∧
      "paths" ∈ extractPropertyPaths (.obj fields) "" 3 ∧
      "components" ∈ extractPropertyPaths (.obj fields) "" 3 ∧
      "tags" ∈ extractPropertyPaths (.obj fields) "" 3 ∧
      "servers" ∈ extractPropertyPaths (.obj fields) "" 3 ∧
      "externalDocs" ∈ extractPropertyPaths (.obj fields) "" 3 ∧
      "security" ∈ extractPropertyPaths (.obj fields) "" 3 ∧
      "webhooks" ∈ extractPropertyPaths (.obj fields) "" 3 ∧
      "openapi" ∈ extractPropertyPaths (.obj fields) "" 3) ∧
    extractPropertyPaths (.obj []) "" 3 = rootSectionNames :=
  ⟨⟨extract_root_mem fields _ (by decide), extract_root_mem fields _ (by decide),
    extract_root_mem fields _ (by decide), extract_root_mem fields _ (by decide),
    extract_root_mem fields _ (by decide), extract_root_mem fields _ (by decide),
    extract_root_mem fields _ (by decide), extract_root_mem fields _ (by decide),
    extract_root_mem fields _ (by decide)⟩, by decide⟩

/-- For a non-skipped array-valued field, the field loop emits `key[*]`
and, when the length is at most 5, every concrete index path. -/
theorem extractFieldsWith_arr_mem (recur : JsValue → String → List String)
    (key : String) (xs : List JsValue)
    (h1 : strStarts key "$" = false) (h2 : strStarts key "_" = false) :
    ∀ (l : List (String × JsValue)) (parentPath : String),
      (key, JsValue.arr xs) ∈ l →
      ((key ++ "[*]") ∈ extractFieldsWith recur l parentPath ∧
        (xs.length ≤ 5 → ∀ i < xs.length,
          (key ++ "[" ++ toString i ++ "]") ∈ extractFieldsWith recur l parentPath)) := by
  intro l
  induction l with
  | nil => intro parentPath hmem; cases hmem
  | cons p rest ih =>
    intro parentPath hmem
    rcases List.mem_cons.mp hmem with heq | hmem'
    · obtain ⟨k0, v0⟩ := p
      injection heq with hk hv
      subst hk
      subst hv
      simp only [extractFieldsWith, h1, h2, Bool.or_self, Bool.false_eq_true, if_false,
        typeofObject, isNull, Bool.not_false, Bool.and_self, if_true]
      constructor
      · apply List.mem_append_left
        apply List.mem_append_right
        apply List.mem_append_left
        apply List.mem_append_left
        exact List.mem_singleton_self _
      · intro hlen i hi
        apply List.mem_append_left
        apply List.mem_append_right
        apply List.mem_append_left
        apply List.mem_append_right
        rw [if_pos hlen]
        exact List.mem_map_of_mem _ (List.mem_range.mpr hi)
    · have h := ih parentPath hmem'
      constructor
      · exact List.mem_append_right _ h.1
      · intro hlen i hi
        exact List.mem_append_right _ (h.2 hlen i hi)

/-- C9 (counterexample): a key starting with `$` is skipped entirely, so
for the array-valued key `"$a"` the path `"$a[*]"` is NOT emitted —
refuting the claim's "for every array-valued property key". -/
theorem extractPropertyPaths_skips_dollar_key :
    "$a[*]" ∉ extractPropertyPaths (.obj [("$a", .arr [.num 1])]) "" 3 ∧
    (("$a", JsValue.arr [.num 1]) ∈ ([("$a", JsValue.arr [.num 1])] : List (String × JsValue))) :=
  ⟨by decide, List.mem_singleton_self _⟩

/-- C9 (amended): for every array-valued property key NOT starting with
`$` or `_`, `extractPropertyPaths` emits `key[*]`, and the array-indexing
clause emits `key[0]..key[n-1]` when the length `n` is at most 5;
concretely `{a:[1,2,3,4,5,6]}` yields `"a[*]"` but not `"a[5]"`, and
`{a:[1,2]}` yields `"a[0]"` and `"a[1]"`. -/
theorem extractPropertyPaths_array_paths (fields : List (String × JsValue)) (key : String)
    (xs : List JsValue) (hmem : (key, JsValue.arr xs) ∈ fields)
    (h1 : strStarts key "$" = false) (h2 : strStarts key "_" = false) :
    ((key ++ "[*]") ∈ extractPropertyPaths (.obj fields) "" 3 ∧
      (xs.length ≤ 5 → ∀ i < xs.length,
        (key ++ "[" ++ toString i ++ "]") ∈ extractPropertyPaths (.obj fields) "" 3)) ∧
    ("a[*]" ∈ extractPropertyPaths
        (.obj [("a", .arr [.num 1, .num 2, .num 3, .num 4, .num 5, .num 6])]) "" 3 ∧
      "a[5]" ∉ extractPropertyPaths
        (.obj [("a", .arr [.num 1, .num 2, .num 3, .num 4, .num 5, .num 6])]) "" 3 ∧
      "a[0]" ∈ extractPropertyPaths (.obj [("a", .arr [.num 1, .num 2])]) "" 3 ∧
      "a[1]" ∈ extractPropertyPaths (.obj [("a", .arr [.num 1, .num 2])]) "" 3) := by
  constructor
  · have h := extractFieldsWith_arr_mem (fun c cp => extractPropertyPaths c cp 2)
      key xs h1 h2 fields "" hmem
    constructor
    · show _ ∈ dedupFirst (rootSectionNames ++ _)
      rw [mem_dedupFirst]
      exact List.mem_append_right _ h.1
    · intro hlen i hi
      show _ ∈ dedupFirst (rootSectionNames ++ _)
      rw [mem_dedupFirst]
      exact List.mem_append_right _ (h.2 hlen i hi)
  · exact ⟨by decide, by decide, by decide, by decide⟩

/-- C9 (witness): the amended theorem applied to `{a:[1,2]}` at key
`"a"`. -/
theorem extractPropertyPaths_array_paths_witness :
    (("a", JsValue.arr [.num 1, .num 2]) ∈
      ([("a", JsValue.arr [.num 1, .num 2])] : List (String × JsValue))) ∧
    strStarts "a" "$" = false ∧ strStarts "a" "_" = false ∧
    ("a" ++ "[*]") ∈ extractPropertyPaths (.obj [("a", .arr [.num 1, .num 2])]) "" 3 :=
  ⟨List.mem_singleton_self _, by decide, by decide,
    (extractPropertyPaths_array_paths [("a", .arr [.num 1, .num 2])] "a" [.num 1, .num 2]
      (List.mem_singleton_self _) (by decide) (by decide)).1.1⟩

/-- Appending a parent path, a dot and a key is never empty. -/
theorem append_dot_ne (p k : String) : p ++ "." ++ k ≠ "" := by
  intro h
  have hl := congrArg String.length h
  rw [String.length_append, String.length_append] at hl
  have hd : (".").length = 1 := rfl
  have he : ("" : String).length = 0 := rfl
  omega

/-- The field loop does not depend on a non-empty parent path, provided
the recursive call does not either. -/
theorem extractFieldsWith_indep (recur : JsValue → String → List String)
    (hrec : ∀ v q1 q2, q1 ≠ "" → q2 ≠ "" → recur v q1 = recur v q2) :
    ∀ (l : List (String × JsValue)) (p1 p2 : String), p1 ≠ "" → p2 ≠ "" →
      extractFieldsWith recur l p1 = extractFieldsWith recur l p2 := by
  intro l
  induction l with
  | nil => intro p1 p2 _ _; rfl
  | cons p rest ih =>
    intro p1 p2 h1 h2
    obtain ⟨key, v⟩ := p
    cases v with
    | obj fs =>
      simp only [extractFieldsWith, ih p1 p2 h1 h2, if_neg h1, if_neg h2,
        hrec (JsValue.obj fs) (p1 ++ "." ++ key) (p2 ++ "." ++ key)
          (append_dot_ne p1 key) (append_dot_ne p2 key)]
    | arr xs => simp only [extractFieldsWith, ih p1 p2 h1 h2]
    | undefined => simp only [extractFieldsWith, ih p1 p2 h1 h2, typeofObject, isNull,
        Bool.false_and, Bool.false_eq_true, if_false]
    | null => simp only [extractFieldsWith, ih p1 p2 h1 h2, typeofObject, isNull,
        Bool.not_true, Bool.and_false, Bool.false_eq_true, if_false]
    | bool b => simp only [extractFieldsWith, ih p1 p2 h1 h2, typeofObject, isNull,
        Bool.false_and, Bool.false_eq_true, if_false]
    | num n => simp only [extractFieldsWith, ih p1 p2 h1 h2, typeofObject, isNull,
        Bool.false_and, Bool.false_eq_true, if_false]
    | str s => simp only [extractFieldsWith, ih p1 p2 h1 h2, typeofObject, isNull,
        Bool.false_and, Bool.false_eq_true, if_false]

/-- C10 (amended): the `parentPath` argument only controls the root
seeding: for every node, every depth, and any two NON-empty parent paths,
`extractPropertyPaths` returns exactly the same list — the function never
prepends the supplied parent path to what it emits. -/
theorem extractPropertyPaths_parent_independent :
    ∀ (d : Nat) (v : JsValue) (p1 p2 : String), p1 ≠ "" → p2 ≠ "" →
      extractPropertyPaths v p1 d = extractPropertyPaths v p2 d := by
  intro d
  induction d with
  | zero => intro v p1 p2 _ _; rfl
  | succ e ih =>
    intro v p1 p2 h1 h2
    unfold extractPropertyPaths
    by_cases hguard : (!truthy v || !typeofObject v) = true
    · rw [if_pos hguard, if_pos hguard]
    · rw [if_neg hguard, if_neg hguard, if_neg h1, if_neg h2]
      simp only [List.nil_append]
      congr 1
      exact extractFieldsWith_indep _ (fun c q1 q2 hq1 hq2 => ih c q1 q2 hq1 hq2) _ p1 p2 h1 h2

/-- C10 (witness): the independence theorem applied to `{k: 1}` with
parent paths `"x"` and `"y"` at depth 3. -/
theorem extractPropertyPaths_parent_independent_witness :
    ("x" ≠ "") ∧ ("y" ≠ "") ∧
    extractPropertyPaths (.obj [("k", .num 1)]) "x" 3
      = extractPropertyPaths (.obj [("k", .num 1)]) "y" 3 :=
  ⟨by decide, by decide,
    extractPropertyPaths_parent_independent 3 (.obj [("k", .num 1)]) "x" "y"
      (by decide) (by decide)⟩

/-- C10 (counterexample): a returned string CAN be prefixed with the
supplied parent path: `extractPropertyPaths({ab: 1}, "a", 3) = ["ab"]`,
and `"ab"` starts with the parent path `"a"` — the claim's "no returned
string is prefixed with the supplied parent path" is false as stated (the
function merely never CONSTRUCTS outputs from the parent path). -/
theorem extractPropertyPaths_prefix_key_output :
    extractPropertyPaths (.obj [("ab", .num 1)]) "a" 3 = ["ab"] ∧
    strStarts "ab" "a" = true := by
  decide

/-- Sort keys are totally ordered: trichotomy. -/
theorem keyLt_trichotomy (a b : Nat × Int × Int) : keyLt a b ∨ a = b ∨ keyLt b a := by
  obtain ⟨a1, a2, a3⟩ := a
  obtain ⟨b1, b2, b3⟩ := b
  simp only [keyLt, Prod.mk.injEq]
  omega

/-- `keyLt` is irreflexive. -/
theorem keyLt_irrefl (a : Nat × Int × Int) : ¬ keyLt a a := by
  obtain ⟨a1, a2, a3⟩ := a
  simp only [keyLt]
  omega

/-- `keyLt` is transitive. -/
theorem keyLt_trans {a b c : Nat × Int × Int} (h1 : keyLt a b) (h2 : keyLt b c) : keyLt a c := by
  obtain ⟨a1, a2, a3⟩ := a
  obtain ⟨b1, b2, b3⟩ := b
  obtain ⟨c1, c2, c3⟩ := c
  simp only [keyLt] at h1 h2 ⊢
  omega

instance : IsTotal (Nat × CategorizedSuggestion) tagLe := ⟨by
  intro x y
  rcases keyLt_trichotomy (sortKey x.2) (sortKey y.2) with h | h | h
  · exact Or.inl (Or.inl h)
  · rcases Nat.le_total x.1 y.1 with hle | hle
    · exact Or.inl (Or.inr ⟨h, hle⟩)
    · exact Or.inr (Or.inr ⟨h.symm, hle⟩)
  · exact Or.inr (Or.inl h)⟩

instance : IsTrans (Nat × CategorizedSuggestion) tagLe := ⟨by
  intro x y z hxy hyz
  rcases hxy with h1 | ⟨h1, h1'⟩ <;> rcases hyz with h2 | ⟨h2, h2'⟩
  · exact Or.inl (keyLt_trans h1 h2)
  · exact Or.inl (h2 ▸ h1)
  · exact Or.inl (h1 ▸ h2)
  · exact Or.inr ⟨h1.trans h2, le_trans h1' h2'⟩⟩

/-- C1 (amended): the ranking is a stable sort of the categorized
suggestions — the ranked index-tagged list is a permutation of the input
(tagged with original positions) in which any two entries that tie on the
full sort key (category, importance, frequency) keep their original
relative order, and the returned text list is exactly its projection.
Ranking is however NOT idempotent (see the counterexample), because the
frequency component is recomputed from the reordered input. -/
theorem categorizeAndSortSuggestions_stable (suggestions : List String)
    (currentPath : String) (cursorPosition : Nat) :
    (rankTagged suggestions currentPath cursorPosition).Pairwise
      (fun x y => sortKey x.2 = sortKey y.2 → x.1 ≤ y.1) ∧
    (rankTagged suggestions currentPath cursorPosition).Perm
      (categorizeSuggestions suggestions currentPath cursorPosition).enum ∧
    categorizeAndSortSuggestions suggestions currentPath cursorPosition
      = (rankTagged suggestions currentPath cursorPosition).map (fun x => x.2.text) := by
  refine ⟨?_, ?_, ?_⟩
  · have hs := List.sorted_insertionSort tagLe
      (categorizeSuggestions suggestions currentPath cursorPosition).enum
    refine List.Pairwise.imp ?_ hs
    intro x y hxy
    intro heq
    rcases hxy with h | h
    · exact absurd (heq ▸ h) (keyLt_irrefl _)
    · exact h.2
  · exact List.perm_insertionSort tagLe _
  · unfold categorizeAndSortSuggestions
    split
    · rename_i h
      subst h
      rfl
    · rfl
